import Mathlib

/-!
Verification of the weekly job-search bot pipeline.

The development embeds the program as pure functions over lists of
characters: the keyword matcher, the two source adapters (Remotive and
WeWorkRemotely), the filter/sort/truncate stages, and the orchestrator
as a trace-producing function. External network and spreadsheet calls
are modelled as inputs (already-fetched payloads) and as actions in an
output trace.
-/

/-- Text is modelled as a list of characters, mirroring Python strings. -/
abbrev Str := List Char

/-- Models Python str.lower on the code points the program compares. -/
def lower (s : Str) : Str := s.map Char.toLower

/-- Models Python str.strip: drops leading and trailing whitespace. -/
def strip (s : Str) : Str :=
  ((s.dropWhile Char.isWhitespace).reverse.dropWhile Char.isWhitespace).reverse

/-- True when the text begins with the given pattern. -/
def startsWith : Str → Str → Bool
  | [], _ => true
  | _ :: _, [] => false
  | a :: p, b :: t => decide (a = b) && startsWith p t

/-- Models the Python substring test `p in t`. -/
def containsStr : Str → Str → Bool
  | [], p => p.isEmpty
  | c :: rest, p => startsWith p (c :: rest) || containsStr rest p

/-- Models Python sep.join(parts). -/
def joinStr (sep : Str) : List Str → Str
  | [] => []
  | [x] => x
  | x :: y :: rest => x ++ sep ++ joinStr sep (y :: rest)

/-- The keyword matcher from bot.py: keeps the keywords that are truthy
and whose lowercased, stripped form occurs in the lowercased text. -/
def matches_keywords (text : Str) (keywords : List Str) : List Str :=
  let t := lower text
  keywords.filter fun kw => !kw.isEmpty && containsStr t (strip (lower kw))

/-- The matcher as the specification words it: keeps the non-empty
keywords that occur case-insensitively in the text, with no stripping of
the keyword before the substring test. -/
def matches_keywords_spec (text : Str) (keywords : List Str) : List Str :=
  keywords.filter fun kw => !kw.isEmpty && containsStr (lower text) (lower kw)

/-- The orchestrator keyword parsing: split the raw configuration value
on commas, strip each piece, and keep the pieces that are non-empty
after stripping. -/
def parse_keywords (raw : Str) : List Str :=
  (raw.splitOn ',').filterMap fun k =>
    if (strip k).isEmpty then none else some (strip k)

example : matches_keywords "sql".toList [" sql ".toList] = [" sql ".toList] := by decide
example : matches_keywords_spec "sql".toList [" sql ".toList] = [] := by decide
example : parse_keywords "a, b ,,  ".toList = ["a".toList, "b".toList] := by decide
example : matches_keywords "I use Power BI daily".toList
    ["power bi".toList, "sql".toList, "".toList] = ["power bi".toList] := by decide

/-- The common record shape produced by both adapters.  The `hits` field
models the comma-joined matched-keyword entry the filter stage adds; it
is empty until the record passes the filter. -/
structure Job where
  source : Str
  title : Str
  company : Str
  location : Str
  remote : Str
  posted : Str
  link : Str
  notes : Str
  hits : Str
deriving DecidableEq

/-- A raw Remotive payload item: every provider field may be absent. -/
structure RemotiveItem where
  title : Option Str
  company_name : Option Str
  candidate_required_location : Option Str
  url : Option Str
  publication_date : Option Str
  tags : Option (List Str)
deriving DecidableEq

/-- Normalization performed for each Remotive item, from bot.py. -/
def normalize_remotive (item : RemotiveItem) : Job :=
  { source := "Remotive".toList
    title := item.title.getD []
    company := item.company_name.getD []
    location := item.candidate_required_location.getD "Worldwide".toList
    remote := "Worldwide".toList
    posted := (item.publication_date.getD []).take 10
    link := item.url.getD []
    notes := joinStr " ".toList (item.tags.getD [])
    hits := [] }

/-- The Remotive adapter: a fetched payload either fails as a whole or
yields a list of items, each normalized into a record. -/
def fetch_remotive (resp : Except Unit (List RemotiveItem)) :
    Except Unit (List Job) :=
  resp.map fun items => items.map normalize_remotive

/-- Case-insensitive version of `startsWith`, for the re.I regex flag. -/
def ciStartsWith : Str → Str → Bool
  | [], _ => true
  | _ :: _, [] => false
  | a :: p, b :: t => decide (a.toLower = b.toLower) && ciStartsWith p t

/-- Models the stdlib HTML entity decoding (html.unescape) that the
WeWorkRemotely adapter applies to title and summary: text without an
ampersand passes through unchanged; the replacement table is modelled
for the predefined entities amp, lt and gt, which is the part of the
stdlib table the verified properties depend on. -/
def unescape : Str → Str
  | [] => []
  | '&' :: 'a' :: 'm' :: 'p' :: ';' :: rest => '&' :: unescape rest
  | '&' :: 'l' :: 't' :: ';' :: rest => '<' :: unescape rest
  | '&' :: 'g' :: 't' :: ';' :: rest => '>' :: unescape rest
  | c :: rest => c :: unescape rest

/-- At one regex start position: if the text begins with an opening
strong or b tag (case-insensitively, alternatives tried in the order of
the pattern), return the text after the tag. -/
def tagAfter (s : Str) : Option Str :=
  if ciStartsWith "<strong>".toList s then some (s.drop 8)
  else if ciStartsWith "<b>".toList s then some (s.drop 3)
  else none

/-- The lazy capture of the pattern: the shortest run of non-newline
characters after the tag that is followed by the two closing characters
of a closing tag; none when a newline or the end of text intervenes. -/
def captureToClose : Str → Option Str
  | '<' :: '/' :: _ => some []
  | c :: rest => if c = '\n' then none else (captureToClose rest).map (c :: ·)
  | [] => none

/-- Models re.search with the company pattern of bot.py: scan for the
leftmost start position at which the whole pattern matches, and return
its capture group. -/
def searchCompany : Str → Option Str
  | [] => none
  | c :: rest =>
    match tagAfter (c :: rest) with
    | some after =>
      match captureToClose after with
      | some cap => some cap
      | none => searchCompany rest
    | none => searchCompany rest

/-- The company extraction as the specification words it: the bold or
strong markup must sit at the start of the summary. -/
def searchCompanyAtStart (s : Str) : Option Str :=
  match tagAfter s with
  | some after => captureToClose after
  | none => none

/-- A raw WeWorkRemotely feed entry: every field may be absent. -/
structure WwrEntry where
  title : Option Str
  link : Option Str
  summary : Option Str
  published : Option Str
deriving DecidableEq

/-- Normalization performed for each WeWorkRemotely entry, from bot.py. -/
def normalize_wwr (e : WwrEntry) : Job :=
  let summary := unescape (e.summary.getD [])
  { source := "WeWorkRemotely".toList
    title := unescape (e.title.getD [])
    company := (searchCompany summary).getD []
    location := "Worldwide".toList
    remote := "Worldwide".toList
    posted := (e.published.getD []).take 16
    link := e.link.getD []
    notes := summary
    hits := [] }

/-- The WeWorkRemotely adapter: the channel list is traversed in order
with no per-channel error boundary, so one failing channel makes the
whole source fail, exactly as the single try/except around the source
call in main observes it. -/
def fetch_wwr : List (Except Unit (List WwrEntry)) → Except Unit (List Job)
  | [] => .ok []
  | .error e :: _ => .error e
  | .ok entries :: rest =>
    match fetch_wwr rest with
    | .error e => .error e
    | .ok js => .ok (entries.map normalize_wwr ++ js)

/-- The fetch loop of main: each source is attempted under its own
try/except, a failing source contributing zero records. -/
def fetchAll (remotive : Except Unit (List RemotiveItem))
    (wwr : List (Except Unit (List WwrEntry))) : List Job :=
  (match fetch_remotive remotive with | .ok js => js | .error _ => []) ++
  (match fetch_wwr wwr with | .ok js => js | .error _ => [])

/-- Strict lexicographic comparison on text, by code point, a strict
proper initial segment counting as smaller: Python string less-than. -/
def strLt : Str → Str → Bool
  | [], [] => false
  | [], _ :: _ => true
  | _ :: _, [] => false
  | a :: as, b :: bs => decide (a < b) || (decide (a = b) && strLt as bs)

/-- Python string less-or-equal. -/
def strLe (a b : Str) : Bool := strLt a b || decide (a = b)

/-- Python tuple comparison on the (posted, title) sort key. -/
def pairLe (x y : Str × Str) : Bool :=
  strLt x.1 y.1 || (decide (x.1 = y.1) && strLe x.2 y.2)

/-- The sort key of the ranker in main. -/
def key (j : Job) : Str × Str := (j.posted, j.title)

/-- The comparator under which the stable sort of main is descending:
a record comes no later than another when its key is no smaller. -/
def jobLe (a b : Job) : Bool := pairLe (key b) (key a)

theorem strLt_trans :
    ∀ (a b c : Str), strLt a b = true → strLt b c = true → strLt a c = true
  | [], [], _, h1, _ => by simp [strLt] at h1
  | [], _ :: _, [], _, h2 => by simp [strLt] at h2
  | [], _ :: _, _ :: _, _, _ => rfl
  | _ :: _, [], _, h1, _ => by simp [strLt] at h1
  | _ :: _, _ :: _, [], _, h2 => by simp [strLt] at h2
  | a :: as, b :: bs, c :: cs, h1, h2 => by
    simp only [strLt, Bool.or_eq_true, Bool.and_eq_true, decide_eq_true_eq] at h1 h2 ⊢
    rcases h1 with h1 | ⟨h1e, h1r⟩
    · rcases h2 with h2 | ⟨h2e, h2r⟩
      · exact Or.inl (lt_trans h1 h2)
      · exact Or.inl (h2e ▸ h1)
    · rcases h2 with h2 | ⟨h2e, h2r⟩
      · exact Or.inl (h1e ▸ h2)
      · exact Or.inr ⟨h1e.trans h2e, strLt_trans as bs cs h1r h2r⟩

theorem strLt_connex :
    ∀ (a b : Str), strLt a b = false → strLt b a = false → a = b
  | [], [], _, _ => rfl
  | [], _ :: _, h1, _ => by simp [strLt] at h1
  | _ :: _, [], _, h2 => by simp [strLt] at h2
  | a :: as, b :: bs, h1, h2 => by
    simp only [strLt, Bool.or_eq_false_iff, Bool.and_eq_false_iff,
      decide_eq_false_iff_not, decide_eq_true_eq] at h1 h2
    have hab : a = b := le_antisymm (not_lt.mp h2.1) (not_lt.mp h1.1)
    subst hab
    rcases h1.2 with h | h
    · exact absurd rfl h
    · rcases h2.2 with h' | h'
      · exact absurd rfl h'
      · rw [strLt_connex as bs h h']

theorem strLe_trans (a b c : Str) (h1 : strLe a b = true) (h2 : strLe b c = true) :
    strLe a c = true := by
  simp only [strLe, Bool.or_eq_true, decide_eq_true_eq] at h1 h2 ⊢
  rcases h1 with h1 | rfl
  · rcases h2 with h2 | rfl
    · exact Or.inl (strLt_trans a b c h1 h2)
    · exact Or.inl h1
  · exact h2

theorem strLe_total (a b : Str) : (strLe a b || strLe b a) = true := by
  simp only [strLe, Bool.or_eq_true, decide_eq_true_eq]
  cases h1 : strLt a b
  · cases h2 : strLt b a
    · exact Or.inl (Or.inr (strLt_connex a b h1 h2))
    · exact Or.inr (Or.inl rfl)
  · exact Or.inl (Or.inl rfl)

theorem strLe_refl (a : Str) : strLe a a = true := by
  simp [strLe]

theorem pairLe_trans (x y z : Str × Str) (h1 : pairLe x y = true)
    (h2 : pairLe y z = true) : pairLe x z = true := by
  simp only [pairLe, Bool.or_eq_true, Bool.and_eq_true, decide_eq_true_eq] at h1 h2 ⊢
  rcases h1 with h1 | ⟨h1e, h1r⟩
  · rcases h2 with h2 | ⟨h2e, h2r⟩
    · exact Or.inl (strLt_trans _ _ _ h1 h2)
    · exact Or.inl (h2e ▸ h1)
  · rcases h2 with h2 | ⟨h2e, h2r⟩
    · exact Or.inl (h1e ▸ h2)
    · exact Or.inr ⟨h1e.trans h2e, strLe_trans _ _ _ h1r h2r⟩

theorem pairLe_total (x y : Str × Str) : (pairLe x y || pairLe y x) = true := by
  simp only [pairLe, Bool.or_eq_true, Bool.and_eq_true, decide_eq_true_eq]
  cases h1 : strLt x.1 y.1
  · cases h2 : strLt y.1 x.1
    · have he : x.1 = y.1 := strLt_connex _ _ h1 h2
      rcases Bool.or_eq_true .. ▸ strLe_total x.2 y.2 with h | h
      · exact Or.inl (Or.inr ⟨he, h⟩)
      · exact Or.inr (Or.inr ⟨he.symm, h⟩)
    · exact Or.inr (Or.inl rfl)
  · exact Or.inl (Or.inl rfl)

theorem pairLe_refl (x : Str × Str) : pairLe x x = true := by
  simp [pairLe, strLe_refl]

theorem jobLe_trans (a b c : Job) (h1 : jobLe a b = true) (h2 : jobLe b c = true) :
    jobLe a c = true :=
  pairLe_trans (key c) (key b) (key a) h2 h1

theorem jobLe_total (a b : Job) : (jobLe a b || jobLe b a) = true :=
  pairLe_total (key b) (key a)

/-- The sorting stage of main: a stable sort, descending on the
(posted, title) key under lexicographic comparison. -/
def sortJobs (l : List Job) : List Job := l.mergeSort jobLe

/-- The ranking stage of main: sort, then truncate to max_total. -/
def rank (l : List Job) (max_total : Nat) : List Job :=
  (sortJobs l).take max_total

/-- The searchable text built for each record in main. -/
def searchText (j : Job) : Str := joinStr " ".toList [j.title, j.company, j.notes]

/-- The enrichment main applies to a record that passed the filter:
its matched keywords, comma-joined, stored on the record. -/
def applyHits (kws : List Str) (j : Job) : Job :=
  { j with hits := joinStr ", ".toList (matches_keywords (searchText j) kws) }

/-- The filtering stage of main: a record survives exactly when its
searchable text matches at least one keyword. -/
def filterJobs (kws : List Str) : List Job → List Job
  | [] => []
  | j :: rest =>
    if (matches_keywords (searchText j) kws).isEmpty then filterJobs kws rest
    else applyHits kws j :: filterJobs kws rest

example : searchCompany "Hi <b>Acme</b> sql".toList = some "Acme".toList := by decide
example : searchCompanyAtStart "Hi <b>Acme</b> sql".toList = none := by decide
example : searchCompany "<STRONG>Beta</strong> x".toList = some "Beta".toList := by decide
example : searchCompany "<b>A\nB</b><b>C</b>".toList = some "C".toList := by decide
example : unescape "a &amp; b &lt;ok&gt; &x".toList = "a & b <ok> &x".toList := by decide

/-- The environment-sourced configuration read at the top of main.
Raw values are carried as read and stripped inside the run, mirroring
the code; the maximum result count is the parsed MAX_TOTAL value. -/
structure Config where
  google_sheet_id : Str
  worksheet_name : Str
  max_total : Nat
  keywords_raw : Str
  service_file_exists : Bool
  sa_json_env : Str

/-- The fatal failure class of the run: required configuration absent. -/
inductive BotError where
  | config (msg : Str)
deriving DecidableEq

/-- The externally visible steps a run performs, in order. -/
inductive RunAct where
  | writeCredFile
  | fetchA
  | fetchB
  | clearSheet
  | appendRow (r : List Str)
deriving DecidableEq

/-- The fixed header row written by the publisher. -/
def headers : List Str :=
  ["Week Of (Mon)", "Source", "Job Title", "Company", "Location",
   "Remote Policy", "Posted Date", "Link", "Notes", "Matched Keywords"].map
    String.toList

/-- One published row for a ranked record, in the column order of main. -/
def rowOf (week : Str) (j : Job) : List Str :=
  [week, j.source, j.title, j.company, j.location, j.remote, j.posted,
   j.link, j.notes, j.hits]

/-- The orchestrator main as a trace-producing function: given the
configuration and the payloads the network would return, it either
aborts with a fatal error having performed no action, or returns the
ordered list of performed actions.  Publisher authentication is out of
scope and modelled as succeeding. -/
def mainRun (cfg : Config) (remotive : Except Unit (List RemotiveItem))
    (wwr : List (Except Unit (List WwrEntry))) (week : Str) :
    List RunAct × Except BotError Unit :=
  let sheet_id := strip cfg.google_sheet_id
  let keywords := parse_keywords cfg.keywords_raw
  if sheet_id.isEmpty then
    ([], .error (.config "GOOGLE_SHEET_ID not provided".toList))
  else if !cfg.service_file_exists && (strip cfg.sa_json_env).isEmpty then
    ([], .error (.config
      "service_account.json missing and GOOGLE_SERVICE_ACCOUNT_JSON not set".toList))
  else
    let credActs : List RunAct :=
      if cfg.service_file_exists then [] else [.writeCredFile]
    let ranked := rank (filterJobs keywords (fetchAll remotive wwr)) cfg.max_total
    (credActs ++ [.fetchA, .fetchB, .clearSheet, .appendRow headers] ++
      ranked.map (fun j => .appendRow (rowOf week j)), .ok ())

/-- Claim C1, counterexample: the claim states that exactly the
non-empty keywords occurring case-insensitively as substrings of the
text are returned, but the code strips each keyword before the
substring test, so the keyword " sql " (which is not a substring of the
text "sql") is returned for the text "sql". -/
theorem C1_counterexample :
    matches_keywords "sql".toList [" sql ".toList] = [" sql ".toList] ∧
    matches_keywords_spec "sql".toList [" sql ".toList] = [] ∧
    matches_keywords "sql".toList [" sql ".toList] ≠
      matches_keywords_spec "sql".toList [" sql ".toList] :=
  ⟨by decide, by decide, by decide⟩

/-- Claim C1, amended: for every keyword list K and text T,
matches_keywords returns exactly the keywords of K that are non-empty
and whose lowercased, whitespace-stripped form occurs as a substring of
the lowercased T, in the order of K; the result is a sublist of K and
contains no empty keyword. -/
theorem C1_matches_keywords_amended (T : Str) (K : List Str) :
    matches_keywords T K =
      K.filter (fun kw => !kw.isEmpty && containsStr (lower T) (strip (lower kw))) ∧
    (matches_keywords T K).Sublist K ∧
    ((matches_keywords T K).all fun kw => !kw.isEmpty) = true := by
  refine ⟨rfl, List.filter_sublist K, ?_⟩
  rw [List.all_eq_true]
  intro kw hkw
  simp only [matches_keywords] at hkw
  have h := (List.mem_filter.mp hkw).2
  exact ((Bool.and_eq_true ..).mp h).1

/-- Claim C2, counterexample: a Remotive item with every field absent
is not normalized with an empty location string; the location field
defaults to the Worldwide sentinel instead. -/
theorem C2_counterexample :
    (normalize_remotive ⟨none, none, none, none, none, none⟩).location =
      "Worldwide".toList ∧
    (normalize_remotive ⟨none, none, none, none, none, none⟩).location ≠ [] :=
  ⟨by decide, by decide⟩

/-- Claim C2, amended: Remotive normalization maps provider fields to
the common record shape; absent title, company, link, publication date
and tags default to the empty string or empty list, while an absent
location defaults to the Worldwide sentinel; notes is the tag list
joined into one string by single spaces; posted is the first 10
characters of the publication date. -/
theorem C2_normalize_remotive_amended (item : RemotiveItem) :
    (normalize_remotive item).source = "Remotive".toList ∧
    (normalize_remotive item).title = item.title.getD [] ∧
    (normalize_remotive item).company = item.company_name.getD [] ∧
    (normalize_remotive item).location =
      item.candidate_required_location.getD "Worldwide".toList ∧
    (normalize_remotive item).link = item.url.getD [] ∧
    (normalize_remotive item).posted = (item.publication_date.getD []).take 10 ∧
    (normalize_remotive item).posted.length ≤ 10 ∧
    (normalize_remotive item).notes = joinStr " ".toList (item.tags.getD []) := by
  refine ⟨rfl, rfl, rfl, rfl, rfl, rfl, ?_, rfl⟩
  simp only [normalize_remotive, List.length_take]
  omega

/-- Claim C3, counterexample: the claim states the company is taken
from bold or strong markup at the start of the unescaped summary,
defaulting to empty when no such markup is there; but the code searches
the whole summary, so a summary whose markup is not at the start still
yields a company, where the start-anchored extraction yields none. -/
theorem C3_counterexample :
    (normalize_wwr ⟨some "T".toList, some "L".toList,
        some "Hi <b>Acme</b> sql".toList,
        some "Mon, 04 Aug 2025 08:00:00 GMT".toList⟩).company =
      "Acme".toList ∧
    (searchCompanyAtStart (unescape "Hi <b>Acme</b> sql".toList)).getD [] = [] :=
  ⟨by decide, by decide⟩

/-- Claim C3, amended: WeWorkRemotely normalization extracts the
company from the first bold or strong markup found anywhere in the
HTML-unescaped summary (capturing lazily up to the next closing-tag
marker), defaulting to the empty string when no such markup matches;
posted is the first 16 characters of the published timestamp; location
and remote policy are hardcoded to the Worldwide sentinel. -/
theorem C3_normalize_wwr_amended (e : WwrEntry) :
    (normalize_wwr e).company =
      (searchCompany (unescape (e.summary.getD []))).getD [] ∧
    (normalize_wwr e).title = unescape (e.title.getD []) ∧
    (normalize_wwr e).notes = unescape (e.summary.getD []) ∧
    (normalize_wwr e).posted = (e.published.getD []).take 16 ∧
    (normalize_wwr e).posted.length ≤ 16 ∧
    (normalize_wwr e).location = "Worldwide".toList ∧
    (normalize_wwr e).remote = "Worldwide".toList := by
  refine ⟨rfl, rfl, rfl, rfl, ?_, rfl, rfl⟩
  simp only [normalize_wwr, List.length_take]
  omega

/-- A concrete Remotive item used to exercise the fetch loop. -/
def sampleRemotiveItem : RemotiveItem :=
  ⟨some "SQL Analyst".toList, some "Acme".toList, none,
   some "https://r/1".toList, some "2025-08-04T08:00:00".toList,
   some ["sql".toList]⟩

/-- A concrete entry for the first WeWorkRemotely channel. -/
def sampleWwrEntry1 : WwrEntry :=
  ⟨some "Data Engineer".toList, some "https://w/1".toList,
   some "<b>Beta</b> sql work".toList,
   some "Mon, 04 Aug 2025 08:00:00 GMT".toList⟩

/-- A concrete entry for the third WeWorkRemotely channel. -/
def sampleWwrEntry2 : WwrEntry :=
  ⟨some "BI Lead".toList, some "https://w/2".toList,
   some "<strong>Gamma</strong> power bi".toList,
   some "Tue, 05 Aug 2025 09:00:00 GMT".toList⟩

/-- Claim C4, counterexample: with three WeWorkRemotely channels of
which only the second raises, the claim promises the records of the
first and third channels; but the fetch loop has no per-channel
boundary, so the whole source yields zero records and the merged list
holds only the Remotive record. -/
theorem C4_counterexample :
    fetchAll (.ok [sampleRemotiveItem])
      [.ok [sampleWwrEntry1], .error (), .ok [sampleWwrEntry2]] =
      [normalize_remotive sampleRemotiveItem] ∧
    normalize_wwr sampleWwrEntry1 ∉
      fetchAll (.ok [sampleRemotiveItem])
        [.ok [sampleWwrEntry1], .error (), .ok [sampleWwrEntry2]] :=
  ⟨by decide, by decide⟩

/-- Claim C4, amended: if any WeWorkRemotely channel raises, the whole
WeWorkRemotely source fails and contributes zero records, every other
channel of that source included; Feed A records are unaffected and the
run continues with only Feed A data. -/
theorem C4_channel_failure_amended (items : List RemotiveItem)
    (wwr : List (Except Unit (List WwrEntry)))
    (h : Except.error () ∈ wwr) :
    fetch_wwr wwr = .error () ∧
    fetchAll (.ok items) wwr = items.map normalize_remotive := by
  have hw : fetch_wwr wwr = .error () := by
    induction wwr with
    | nil => cases h
    | cons c rest ih =>
      cases c with
      | error e => cases e; rfl
      | ok entries =>
        have hmem : Except.error () ∈ rest := by
          rcases List.mem_cons.mp h with heq | hmem
          · exact absurd heq (by simp)
          · exact hmem
        simp [fetch_wwr, ih hmem]
  refine ⟨hw, ?_⟩
  simp [fetchAll, fetch_remotive, hw, Except.map]

/-- Witness for the amended claim C4 at a concrete failing channel. -/
theorem C4_channel_failure_witness :
    fetch_wwr [Except.error ()] = Except.error () ∧
    fetchAll (Except.ok []) [Except.error ()] =
      List.map normalize_remotive [] :=
  C4_channel_failure_amended [] [Except.error ()] (List.Mem.head _)

/-- Claim C5: for every merged-filtered list and configured maximum,
the ranker returns min(max_total, count) records, so the output length
is at most max_total and equals the count whenever the count is below
max_total. -/
theorem C5_rank_length (l : List Job) (n : Nat) :
    (rank l n).length = min n l.length := by
  simp [rank, sortJobs]

/-- Claim C6: the sort stage orders the records descending by the
(posted, title) pair under lexicographic string comparison (ties on
posted broken by title), and it is stable: for every fixed key value,
the records carrying that key appear in their input order. -/
theorem C6_rank_order_stable (l : List Job) (k : Str × Str) :
    (sortJobs l).Pairwise (fun a b => jobLe a b = true) ∧
    (sortJobs l).filter (fun j => decide (key j = k)) =
      l.filter (fun j => decide (key j = k)) := by
  constructor
  · exact List.sorted_mergeSort jobLe_trans jobLe_total l
  · have hpw : (l.filter (fun j => decide (key j = k))).Pairwise
        (fun a b => jobLe a b = true) := by
      apply List.pairwise_of_forall_mem_list
      intro a ha b hb
      have hak : key a = k := of_decide_eq_true (List.mem_filter.mp ha).2
      have hbk : key b = k := of_decide_eq_true (List.mem_filter.mp hb).2
      show jobLe a b = true
      simp only [jobLe]
      rw [hak, hbk]
      exact pairLe_refl k
    have hsub : (l.filter (fun j => decide (key j = k))).Sublist (sortJobs l) :=
      List.sublist_mergeSort jobLe_trans jobLe_total hpw (List.filter_sublist l)
    have he : (l.filter (fun j => decide (key j = k))).filter
        (fun j => decide (key j = k)) = l.filter (fun j => decide (key j = k)) :=
      List.filter_eq_self.mpr fun a ha => (List.mem_filter.mp ha).2
    have hsub2 : (l.filter (fun j => decide (key j = k))).Sublist
        ((sortJobs l).filter (fun j => decide (key j = k))) := by
      have h2 := List.Sublist.filter (fun j => decide (key j = k)) hsub
      rwa [he] at h2
    have hperm : List.Perm ((sortJobs l).filter (fun j => decide (key j = k)))
        (l.filter (fun j => decide (key j = k))) :=
      (List.mergeSort_perm l jobLe).filter (fun j => decide (key j = k))
    exact (hsub2.eq_of_length hperm.length_eq.symm).symm

/-- Claim C7: the sort-and-truncate stage is idempotent: applied to its
own output it returns that output unchanged. -/
theorem C7_rank_idempotent (l : List Job) (n : Nat) :
    rank (rank l n) n = rank l n := by
  have ht : ((sortJobs l).take n).Pairwise (fun a b => jobLe a b = true) :=
    List.Pairwise.sublist (List.take_sublist n (sortJobs l))
      (List.sorted_mergeSort jobLe_trans jobLe_total l)
  show (sortJobs ((sortJobs l).take n)).take n = (sortJobs l).take n
  rw [show sortJobs ((sortJobs l).take n) = (sortJobs l).take n from
    List.mergeSort_of_sorted ht]
  rw [List.take_take, Nat.min_self]

theorem joinStr_cons_ne_nil (sep a : Str) (l : List Str) (h : a ≠ []) :
    joinStr sep (a :: l) ≠ [] := by
  cases l with
  | nil => simpa [joinStr] using h
  | cons b t => simp [joinStr, h]

theorem mem_matches_keywords_ne_nil {t kw : Str} {K : List Str}
    (h : kw ∈ matches_keywords t K) : kw ≠ [] := by
  simp only [matches_keywords] at h
  have h1 := ((Bool.and_eq_true ..).mp (List.mem_filter.mp h).2).1
  simpa using h1

/-- Claim C8: a record survives the filtering stage exactly when its
searchable text matches at least one keyword, in which case its stored
matched-keywords entry is non-empty; consequently every record of the
ranked output also has a non-empty matched-keywords entry, and a record
matching no keyword is dropped entirely. -/
theorem C8_filter_invariant (l : List Job) (kws : List Str) (n : Nat) :
    filterJobs kws l =
      (l.filter fun j => !(matches_keywords (searchText j) kws).isEmpty).map
        (applyHits kws) ∧
    ((filterJobs kws l).all fun j => !j.hits.isEmpty) = true ∧
    ((rank (filterJobs kws l) n).all fun j => !j.hits.isEmpty) = true := by
  have h1 : filterJobs kws l = (l.filter fun j =>
      !(matches_keywords (searchText j) kws).isEmpty).map (applyHits kws) := by
    induction l with
    | nil => rfl
    | cons j rest ih =>
      by_cases h : (matches_keywords (searchText j) kws).isEmpty
      · simp [filterJobs, h, ih]
      · simp [filterJobs, h, ih]
  have h2 : ∀ j ∈ filterJobs kws l, j.hits ≠ [] := by
    intro j hj
    rw [h1] at hj
    rcases List.mem_map.mp hj with ⟨j0, hj0, rfl⟩
    show joinStr ", ".toList (matches_keywords (searchText j0) kws) ≠ []
    have hne := (List.mem_filter.mp hj0).2
    cases hm : matches_keywords (searchText j0) kws with
    | nil => rw [hm] at hne; simp at hne
    | cons a t =>
      exact joinStr_cons_ne_nil _ _ _
        (mem_matches_keywords_ne_nil (hm ▸ List.mem_cons_self a t))
  refine ⟨h1, ?_, ?_⟩
  · rw [List.all_eq_true]
    intro j hj
    simpa using h2 j hj
  · rw [List.all_eq_true]
    intro j hj
    simp only [rank, sortJobs] at hj
    have hj' : j ∈ filterJobs kws l :=
      List.mem_mergeSort.mp (List.mem_of_mem_take hj)
    simpa using h2 j hj'

/-- Claim C9: when the required sheet ID is missing (empty after
stripping), or the credential file is absent and the credential
environment value is blank, the run aborts with a fatal configuration
error and its action trace is empty: no source fetch happens and
nothing is written to the destination. -/
theorem C9_config_abort (cfg : Config) (rem : Except Unit (List RemotiveItem))
    (wwr : List (Except Unit (List WwrEntry))) (week : Str)
    (h : strip cfg.google_sheet_id = [] ∨
      (cfg.service_file_exists = false ∧ strip cfg.sa_json_env = [])) :
    (∃ msg, (mainRun cfg rem wwr week).2 = .error (.config msg)) ∧
    (mainRun cfg rem wwr week).1 = [] := by
  rcases h with h | ⟨hf, he⟩
  · exact ⟨⟨"GOOGLE_SHEET_ID not provided".toList, by simp [mainRun, h]⟩,
      by simp [mainRun, h]⟩
  · by_cases hs : (strip cfg.google_sheet_id).isEmpty
    · exact ⟨⟨"GOOGLE_SHEET_ID not provided".toList, by simp [mainRun, hs]⟩,
        by simp [mainRun, hs]⟩
    · refine ⟨⟨("service_account.json missing and " ++
          "GOOGLE_SERVICE_ACCOUNT_JSON not set").toList, ?_⟩, ?_⟩ <;>
        simp [mainRun, hs, hf, he]

/-- Witness for claim C9 at a concrete configuration with no sheet ID. -/
theorem C9_config_abort_witness :
    (∃ msg, (mainRun ⟨[], [], 20, [], true, []⟩ (.ok []) [] []).2 =
      Except.error (.config msg)) ∧
    (mainRun ⟨[], [], 20, [], true, []⟩ (.ok []) [] []).1 = [] :=
  C9_config_abort ⟨[], [], 20, [], true, []⟩ (.ok []) [] [] (Or.inl rfl)

theorem dropWhile_head_false {p : Char → Bool} :
    ∀ (l : Str) (x : Char) (xs : Str), l.dropWhile p = x :: xs → p x = false
  | [], x, xs, h => by simp at h
  | c :: t, x, xs, h => by
    rw [List.dropWhile_cons] at h
    by_cases hc : p c
    · rw [if_pos hc] at h
      exact dropWhile_head_false t x xs h
    · rw [if_neg hc] at h
      cases h
      simpa using hc

theorem strip_has_non_whitespace {k : Str} (h : strip k ≠ []) :
    ∃ c, c ∈ strip k ∧ c.isWhitespace = false := by
  cases hd : (k.dropWhile Char.isWhitespace).reverse.dropWhile Char.isWhitespace with
  | nil => exact absurd (by simp [strip, hd]) h
  | cons x xs =>
    refine ⟨x, ?_, dropWhile_head_false _ x xs hd⟩
    show x ∈ strip k
    simp [strip, hd]

theorem toLower_isWhitespace {c : Char} (h : c.isWhitespace = true) :
    (Char.toLower c).isWhitespace = true := by
  have h4 := h
  simp only [Char.isWhitespace, Bool.or_eq_true, decide_eq_true_eq] at h4
  rcases h4 with ((rfl | rfl) | rfl) | rfl <;> decide

theorem strip_eq_nil_of_all_whitespace {s : Str}
    (h : ∀ c ∈ s, c.isWhitespace = true) : strip s = [] := by
  have h1 : s.dropWhile Char.isWhitespace = [] := by
    rw [List.dropWhile_eq_nil_iff]
    exact h
  simp [strip, h1]

theorem containsStr_nil (t : Str) : containsStr t [] = true := by
  cases t <;> simp [containsStr, startsWith]

/-- Claim C10: a keyword that is non-empty but consists only of
whitespace is stripped to the empty string before the substring test,
so matches_keywords returns it for every text whenever it is in the
keyword list; such keywords can never come out of the orchestrator
keyword parsing, which strips each comma-separated entry and drops the
entries that are empty afterwards. -/
theorem C10_whitespace_keyword (T raw kw : Str) (h2 : kw ≠ [])
    (h3 : ∀ c ∈ kw, c.isWhitespace = true) :
    (∀ K : List Str, kw ∈ K → kw ∈ matches_keywords T K) ∧
    kw ∉ parse_keywords raw := by
  constructor
  · intro K hK
    simp only [matches_keywords]
    apply List.mem_filter.mpr
    refine ⟨hK, ?_⟩
    have hstrip : strip (lower kw) = [] := by
      apply strip_eq_nil_of_all_whitespace
      intro c hc
      rcases List.mem_map.mp hc with ⟨c0, hc0, rfl⟩
      exact toLower_isWhitespace (h3 c0 hc0)
    have hke : kw.isEmpty = false := by
      cases kw with
      | nil => exact absurd rfl h2
      | cons c t => rfl
    rw [hstrip, hke, containsStr_nil]
    rfl
  · intro hmem
    simp only [parse_keywords] at hmem
    rcases List.mem_filterMap.mp hmem with ⟨k, hk, hres⟩
    by_cases hik : (strip k).isEmpty
    · simp [hik] at hres
    · simp only [hik, if_neg, Bool.false_eq_true, not_false_eq_true,
        if_false, Option.some.injEq] at hres
      have hne : strip k ≠ [] := by
        rw [hres]
        exact h2
      rcases strip_has_non_whitespace hne with ⟨c, hc, hcw⟩
      rw [hres] at hc
      rw [h3 c hc] at hcw
      cases hcw

/-- Witness for claim C10 at the concrete whitespace keyword. -/
theorem C10_whitespace_keyword_witness :
    [' '] ∈ matches_keywords "abc".toList [[' ']] ∧
    [' '] ∉ parse_keywords "power bi, sql".toList :=
  ⟨(C10_whitespace_keyword "abc".toList "power bi, sql".toList [' ']
      (by decide) (by decide)).1 [[' ']] (List.Mem.head _),
   (C10_whitespace_keyword "abc".toList "power bi, sql".toList [' ']
      (by decide) (by decide)).2⟩
